import Mathlib

/-!
Verification development for the federation transaction ingress core
(`internal/httputil/internalapi.go`: the `httputil` RPC helpers, the
`inthttp.AddRoutes` route table, and the `routing.Send` transaction
pipeline).  The Go code is shallowly embedded: mutable locals and the
process-wide maps (`inFlightTxnsPerOrigin`, `inputWorkers`) become
explicitly threaded state, downstream APIs (roomserver, key verifier)
become oracle functions supplied as an environment, and goroutine
bodies become pure step functions whose observable actions are
recorded in the result.
-/

namespace Dendrite

/-! ## Wire-level JSON responses (util.JSONResponse and the jsonerror bodies) -/

/-- The JSON body of a response, restricted to the shapes produced by the
embedded code: jsonerror.NotJSON, jsonerror.BadJSON, util.MessageResponse,
and the RespSend per-PDU result map (event ID mapped to an error string,
where the empty string models the empty PDUResult). -/
inductive JSONBody where
  | empty
  | notJSON (error : String)
  | badJSON (error : String)
  | message (error : String)
  | respSend (pdus : List (String × String))
  deriving DecidableEq, Repr

/-- util.JSONResponse: an HTTP status code plus a JSON body. -/
structure JSONResponse where
  code : Nat
  body : JSONBody
  deriving DecidableEq, Repr

/-! ## Go map semantics for the per-PDU results map -/

/-- Go map assignment m[k] = v: replace the binding if present, else append. -/
def mapSet (m : List (String × String)) (k v : String) : List (String × String) :=
  match m with
  | [] => [(k, v)]
  | (k₁, v₁) :: rest => if k₁ = k then (k, v) :: rest else (k₁, v₁) :: mapSet rest k v

/-- Go map lookup m[k]. -/
def mapGet (m : List (String × String)) (k : String) : Option String :=
  match m with
  | [] => none
  | (k₁, v₁) :: rest => if k₁ = k then some v₁ else mapGet rest k

/-! ## Contexts (Go context.Context, as far as cancellation is observable) -/

/-- A Go context: the background root, an HTTP request context that may
already be cancelled, or a derived context.WithTimeout. -/
inductive Ctx where
  | background
  | request (cancelled : Bool)
  | withTimeout (parent : Ctx) (minutes : Nat)
  deriving DecidableEq, Repr

/-- Whether ctx.Done() is already closed (cancellation only; a timeout that
has not yet elapsed does not cancel). -/
def Ctx.isCancelled : Ctx → Bool
  | .background => false
  | .request c => c
  | .withTimeout p _ => p.isCancelled

/-! ## Events and PDUs -/

/-- The fields of a parsed gomatrixserverlib event that the pipeline reads:
event.EventID() and event.RoomID(). -/
structure Event where
  eventID : String
  roomID : String
  deriving DecidableEq, Repr

/-- gomatrixserverlib.RoomVersion. -/
abbrev RoomVersion := String

/-- Outcome of gomatrixserverlib.NewEventFromUntrustedJSON: a parsed event,
a BadJSONError (canonical-JSON violation), or any other parse error. -/
inductive ParseOutcome where
  | ok (e : Event)
  | badJSON
  | otherError
  deriving Repr

/-- One raw PDU blob of the transaction, described by what the code can
observe of it: the shallow room_id peek (json.Unmarshal into the header
struct; none models a peek failure) and the result of parsing it under a
given room version. -/
structure PDU where
  roomIDPeek : Option String
  parse : RoomVersion → ParseOutcome

/-- A typed EDU of the envelope; only its presence matters to the claims
settled here (the size limit), so just the type string is kept. -/
structure EDU where
  eduType : String
  deriving DecidableEq, Repr

/-- The decoded transaction envelope: pdus and edus arrays. -/
structure Envelope where
  pdus : List PDU
  edus : List EDU

/-! ## The downstream oracles used by processTransaction -/

/-- Environment of downstream calls made per PDU: the roomserver room
version lookup (none models a query error), the roomserver server-ACL
check api.IsServerBannedFromRoom, and the key verifier
event.VerifyEventSignatures (none means the signature verified, some s
means failure with error string s). -/
structure TxnEnv where
  queryRoomVersionForRoom : String → Option RoomVersion
  isServerBannedFromRoom : String → String → Bool
  verifyEventSignatures : Event → Option String

/-! ## Input tasks and the per-room worker queues -/

/-- inputTask: the context stored at creation, the parsed event and the
room version it was headered with.  The err and duration fields written
back by the worker are modelled in the worker result instead. -/
structure InputTask where
  ctx : Ctx
  event : Event
  roomVersion : RoomVersion
  deriving DecidableEq, Repr

/-- The process-wide inputWorkers map: room ID mapped to that per-room FIFO
queue of pending tasks (front of the list pops first). -/
structure Workers where
  queues : List (String × List InputTask)
  deriving Repr

/-- Push a task onto the FIFO queue of a room, creating the queue if the
room has no worker record yet (sync.Map LoadOrStore plus queue push). -/
def pushQueue : List (String × List InputTask) → String → InputTask → List (String × List InputTask)
  | [], room, task => [(room, [task])]
  | (r, q) :: rest, room, task =>
    if r = room then (r, q ++ [task]) :: rest else (r, q) :: pushQueue rest room task

def Workers.push (w : Workers) (room : String) (task : InputTask) : Workers :=
  ⟨pushQueue w.queues room task⟩

/-- Look up the queue of a room. -/
def lookupQueue : List (String × List InputTask) → String → Option (List InputTask)
  | [], _ => none
  | (r, q) :: rest, room => if r = room then some q else lookupQueue rest room

/-! ## The processTransaction loop -/

/-- The mutable state of the processTransaction loop: the results map, the
local tasks slice, and the process-wide worker queues. -/
structure PTState where
  results : List (String × String)
  tasks : List InputTask
  workers : Workers

/-- The initial loop state over an empty inputWorkers map. -/
def emptyPT : PTState := ⟨[], [], ⟨[]⟩⟩

/-- The fixed abort response of the canonical-JSON branch. -/
def pduBadJSONResponse : JSONResponse := ⟨400, .badJSON "PDU contains bad JSON"⟩

/-- One iteration of the PDU loop of processTransaction: peek the room ID
(skip on failure), query the room version (skip on failure), parse the
event under that version (abort the transaction on BadJSONError, skip on
other errors), check the server ACL (record a result and skip if the
origin is banned), verify signatures (record a result and skip on
failure), otherwise build an inputTask carrying the loop context, append
it to the tasks slice and push it onto the worker queue of the room. -/
def processPDU (env : TxnEnv) (origin : String) (ctx : Ctx) (st : PTState) (pdu : PDU) :
    Except JSONResponse PTState :=
  match pdu.roomIDPeek with
  | none => .ok st
  | some roomID =>
    match env.queryRoomVersionForRoom roomID with
    | none => .ok st
    | some ver =>
      match pdu.parse ver with
      | .badJSON => .error pduBadJSONResponse
      | .otherError => .ok st
      | .ok event =>
        if env.isServerBannedFromRoom event.roomID origin then
          .ok { st with results := mapSet st.results event.eventID "Forbidden by server ACLs" }
        else
          match env.verifyEventSignatures event with
          | some errString =>
            .ok { st with results := mapSet st.results event.eventID errString }
          | none =>
            let task : InputTask := ⟨ctx, event, ver⟩
            .ok { st with tasks := st.tasks ++ [task],
                          workers := st.workers.push event.roomID task }

/-- The PDU loop: run processPDU over the pdus in order; an abort returns
immediately with the state reached so far (the queues are a process-wide
side effect that the early return does not undo). -/
def processPDUs (env : TxnEnv) (origin : String) (ctx : Ctx) :
    List PDU → PTState → PTState × Option JSONResponse
  | [], st => (st, none)
  | p :: ps, st =>
    match processPDU env origin ctx st p with
    | .error r => (st, some r)
    | .ok st₁ => processPDUs env origin ctx ps st₁

/-- processTransaction: run the PDU loop; on abort, return the error
response (the collected results map and the WaitGroup of enqueued tasks
are abandoned).  Otherwise (after processEDUs and wg.Wait(), which change
no observable modelled here) aggregate: every task writes an empty
PDUResult for its event ID into the results map — the task error string
is suppressed in the source — and return the map. -/
def processTransaction (env : TxnEnv) (origin : String) (ctx : Ctx) (pdus : List PDU)
    (st₀ : PTState) : PTState × Except JSONResponse (List (String × String)) :=
  match processPDUs env origin ctx pdus st₀ with
  | (st, some r) => (st, .error r)
  | (st, none) =>
    let finalResults := st.tasks.foldl (fun m task => mapSet m task.event.eventID "") st.results
    ({ st with results := finalResults }, .ok finalResults)

/-! ## The room worker loop (inputWorker.run) -/

/-- Possible task errors written back by the worker: the deadline-exceeded
sentinel from the context pre-check, or a roomserver error string. -/
inductive TaskErr where
  | deadlineExceeded
  | other (msg : String)
  deriving DecidableEq, Repr

/-- Outcome of api.SendEvents on the roomserver side: success, a
gomatrixserverlib.NotAllowed auth rejection, or any other error. -/
inductive SendOutcome where
  | ok
  | notAllowed
  | otherError (msg : String)
  deriving DecidableEq, Repr

/-- The roomserver oracle seen by processEvent. -/
structure RSEnv where
  sendEvents : Event → SendOutcome

/-- processEvent: a thin delegation that submits the event to the
roomserver as kind new (under a background-derived context). -/
def processEvent (rs : RSEnv) (e : Event) : SendOutcome :=
  rs.sendEvents e

/-- The recv_pdus counters the worker touches. -/
structure Metrics where
  expired : Nat
  success : Nat
  deriving DecidableEq, Repr

/-- What the worker wrote back for one task: the final err field and
whether processEvent (the roomserver submission) was invoked at all. -/
structure TaskResult where
  err : Option TaskErr
  submitted : Bool
  deriving DecidableEq, Repr

/-- One iteration body of inputWorker.run for a popped task: first select
on the stored context of the task — if it is already done, fail the task with
context.DeadlineExceeded and count it as expired without doing the work;
otherwise run processEvent under a fresh 5-minute timeout derived from
context.Background(), clear the error on a NotAllowed rejection (making
rejected failures silent), and count a success. -/
def runTask (rs : RSEnv) (task : InputTask) (m : Metrics) : TaskResult × Metrics :=
  if task.ctx.isCancelled then
    (⟨some .deadlineExceeded, false⟩, { m with expired := m.expired + 1 })
  else
    let processingCtx : Ctx := .withTimeout .background 5
    match processingCtx, processEvent rs task.event with
    | _, .ok => (⟨none, true⟩, { m with success := m.success + 1 })
    | _, .notAllowed => (⟨none, true⟩, m)
    | _, .otherError s => (⟨some (.other s), true⟩, m)

/-- The worker loop: pop tasks from the FIFO queue until it is empty,
running each through the iteration body and recording its result. -/
def runWorker (rs : RSEnv) : List InputTask → Metrics → List (InputTask × TaskResult) × Metrics
  | [], m => ([], m)
  | t :: ts, m =>
    let step := runTask rs t m
    let rest := runWorker rs ts step.2
    ((t, step.1) :: rest.1, rest.2)

/-- The events a worker run over a queue actually submits to the
roomserver. -/
def submittedEvents (rs : RSEnv) (queue : List InputTask) (m : Metrics) : List Event :=
  ((runWorker rs queue m).1.filter (fun x => x.2.submitted)).map (fun x => x.1.event)

/-! ## Send: the in-flight registry and the leader/follower split -/

/-- The set of keys currently present in the process-wide
inFlightTxnsPerOrigin map. -/
abbrev Registry := List String

/-- The composite in-flight key: origin, a NUL byte, then the txn ID. -/
def txnIndex (origin txnID : String) : String :=
  origin ++ "\x00" ++ txnID

/-- sync.Map.Delete on the key list. -/
def removeKey (reg : Registry) (key : String) : Registry :=
  reg.filter (fun k => k ≠ key)

/-- What the follower select observes: ctx.Done() fired (the request
context was cancelled or the 5-minute timer elapsed), or a receive from
the channel delivered a value — a closed channel delivers the zero
JSONResponse, whose code is 0. -/
inductive FollowerEvent where
  | ctxDone
  | recv (res : JSONResponse)
  deriving DecidableEq, Repr

/-- The operations Send performs on its in-flight channel and registry
entry, in execution order. -/
inductive RegAction where
  | send (res : JSONResponse)
  | delete (key : String)
  | close
  deriving DecidableEq, Repr

/-- Everything observable about one Send invocation: the HTTP response,
the registry contents afterwards, the channel/registry operations it
performed in order, whether processTransaction ran, and the worker queues
afterwards. -/
structure SendResult where
  response : JSONResponse
  registry : Registry
  actions : List RegAction
  processed : Bool
  workers : Workers
  deriving Repr

/-- Send (/_matrix/federation/v1/send/txnID).  LoadOrStore on the
composite key decides leader or follower.  A follower waits on the
existing channel under a 5-minute timeout bounded by its own request
context, returning 408 on ctx.Done, 202 on a zero (code 0) receive from
a closed channel, and the received response otherwise; it touches
neither the channel nor the registry entry.  The leader decodes the
envelope (400 NotJSON on failure), enforces the 50/100 size limit (400
BadJSON on overflow), runs processTransaction under context.Background()
— not the request context — and on success sends the 200 response on the
channel.  Its deferred calls then run in reverse registration order:
sync.Map.Delete of the entry first, then close of the channel. -/
def Send (env : TxnEnv) (reg : Registry) (requestCtx : Ctx) (origin txnID : String)
    (content : Except String Envelope) (followerEv : FollowerEvent) (w₀ : Workers) :
    SendResult :=
  let index := txnIndex origin txnID
  if index ∈ reg then
    let waitCtx : Ctx := .withTimeout requestCtx 5
    match waitCtx, followerEv with
    | _, .ctxDone =>
      ⟨⟨408, .empty⟩, reg, [], false, w₀⟩
    | _, .recv res =>
      if res.code = 0 then ⟨⟨202, .empty⟩, reg, [], false, w₀⟩
      else ⟨res, reg, [], false, w₀⟩
  else
    let reg₁ := index :: reg
    let finish : List RegAction := [.delete index, .close]
    match content with
    | .error e =>
      ⟨⟨400, .notJSON ("The request body could not be decoded into valid JSON. " ++ e)⟩,
        removeKey reg₁ index, finish, false, w₀⟩
    | .ok txnEvents =>
      if txnEvents.pdus.length > 50 ∨ txnEvents.edus.length > 100 then
        ⟨⟨400, .badJSON "max 50 pdus / 100 edus"⟩, removeKey reg₁ index, finish, false, w₀⟩
      else
        match processTransaction env origin Ctx.background txnEvents.pdus ⟨[], [], w₀⟩ with
        | (st, .error jsonErr) =>
          ⟨jsonErr, removeKey reg₁ index, finish, true, st.workers⟩
        | (st, .ok respPDUs) =>
          let res : JSONResponse := ⟨200, .respSend respPDUs⟩
          ⟨res, removeKey reg₁ index, .send res :: finish, true, st.workers⟩

/-! ## The generic internal-API helpers (httputil) and the proxy shape -/

/-- A response body of the generic helpers, over the request and
response types: the 400 decode-failure message, the decoded request
echoed back (what the source MakeInternalProxyAPI serialises), a
response value, or a federation-client-error envelope. -/
inductive ProxyBody (Req Res : Type) where
  | decodeError (msg : String)
  | request (r : Req)
  | response (r : Res)
  | fedError (errString : String)
  deriving DecidableEq, Repr

structure ProxyResponse (Req Res : Type) where
  code : Nat
  body : ProxyBody Req Res
  deriving DecidableEq, Repr

/-- MakeInternalProxyAPI as defined in the source: the handler has shape
func(context.Context, *reqtype) with no return values.  The body is
decoded into the request (400 with the decode error on failure), the
handler is invoked purely for its side effects, and the decoded request
itself is serialised back at HTTP 200.  No handler error can reach the
response. -/
def MakeInternalProxyAPI (Req Res : Type) (body : Except String Req) (f : Req → Unit) :
    ProxyResponse Req Res :=
  match body with
  | .error e => ⟨400, .decodeError e⟩
  | .ok request =>
    let _ := f request
    ⟨200, .request request⟩

/-- Modelled from the spec: the proxy-API helper shape that the AddRoutes
call sites (GetUserDevices, ClaimKeys, QueryKeys, Backfill, ...) actually
pass — a handler func(ctx, *Req) (*Res, error) — with the RPC-like
server semantics the spec describes: decode the body into Req (400 with
the decode error on failure), invoke the handler, serialise its Res at
HTTP 200 on success, and on handler error return a
federation-client-error envelope wrapping the error string (the
structured error response of util.ErrorResponse, which is not under
src/). -/
def makeInternalProxyAPISpec (Req Res : Type) (body : Except String Req)
    (f : Req → Except String Res) : ProxyResponse Req Res :=
  match body with
  | .error e => ⟨400, .decodeError e⟩
  | .ok request =>
    match f request with
    | .error err => ⟨500, .fedError err⟩
    | .ok res => ⟨200, .response res⟩

/-! ## The AddRoutes route table (inthttp) -/

/-- The distinct route path constants mentioned by AddRoutes, one
constructor per FederationAPI...Path constant it references. -/
inductive RoutePath where
  | queryJoinedHostServerNamesInRoom
  | performInviteRequest
  | performLeaveRequest
  | performDirectoryLookupRequest
  | performBroadcastEDU
  | performJoinRequest
  | claimKeys
  | queryKeys
  | backfill
  | lookupState
  | lookupStateIDs
  | lookupMissingEvents
  | getEvent
  | getEventAuth
  | queryServerKeys
  | lookupServerKeys
  | eventRelationships
  | spacesSummary
  | queryPublicKey
  | inputPublicKey
  deriving DecidableEq, Repr

/-- The sequence of internalAPIMux.Handle registrations AddRoutes
performs, in source order, as pairs of route path constant and handler
metrics name.  Note the GetUserDevices handler is registered under
FederationAPIPerformJoinRequestPath, the same constant used for the
PerformJoinRequest handler immediately before it. -/
def addRoutes : List (RoutePath × String) :=
  [ (.queryJoinedHostServerNamesInRoom, "QueryJoinedHostServerNamesInRoom"),
    (.performInviteRequest, "PerformInvite"),
    (.performLeaveRequest, "PerformLeave"),
    (.performDirectoryLookupRequest, "PerformDirectoryLookupRequest"),
    (.performBroadcastEDU, "PerformBroadcastEDU"),
    (.performJoinRequest, "PerformJoinRequest"),
    (.performJoinRequest, "GetUserDevices"),
    (.claimKeys, "ClaimKeys"),
    (.queryKeys, "QueryKeys"),
    (.backfill, "Backfill"),
    (.lookupState, "LookupState"),
    (.lookupStateIDs, "LookupStateIDs"),
    (.lookupMissingEvents, "LookupMissingEvents"),
    (.getEvent, "GetEvent"),
    (.getEventAuth, "GetEventAuth"),
    (.queryServerKeys, "QueryServerKeys"),
    (.lookupServerKeys, "LookupServerKeys"),
    (.eventRelationships, "MSC2836EventRelationships"),
    (.spacesSummary, "MSC2946SpacesSummary"),
    (.queryPublicKey, "queryPublicKeys"),
    (.inputPublicKey, "inputPublicKeys") ]

/-- Route resolution of the gorilla/mux router: routes are tried in
registration order and the first whose path matches wins. -/
def resolveRoute : List (RoutePath × String) → RoutePath → Option String
  | [], _ => none
  | (p, name) :: rest, q => if p = q then some name else resolveRoute rest q

/-! ## Basic lemmas about the embedded map and loop -/

theorem mapGet_mapSet_self (m : List (String × String)) (k v : String) :
    mapGet (mapSet m k v) k = some v := by
  induction m with
  | nil => simp [mapSet, mapGet]
  | cons hd rest ih =>
    obtain ⟨k₁, v₁⟩ := hd
    by_cases h : k₁ = k
    · simp [mapSet, mapGet, h]
    · simp only [mapSet, mapGet, if_neg h]
      exact ih

theorem mapGet_mapSet_ne (m : List (String × String)) (k₁ k v : String) (h : k₁ ≠ k) :
    mapGet (mapSet m k₁ v) k = mapGet m k := by
  induction m with
  | nil => simp [mapSet, mapGet, h]
  | cons hd rest ih =>
    obtain ⟨k₂, v₂⟩ := hd
    by_cases h₂ : k₂ = k₁
    · subst h₂
      simp [mapSet, mapGet, h]
    · simp only [mapSet, if_neg h₂]
      by_cases h₃ : k₂ = k
      · simp [mapGet, h₃]
      · simp only [mapGet, if_neg h₃]
        exact ih

/-- Unfolding of the loop at a successful step. -/
theorem processPDUs_cons_ok {env : TxnEnv} {origin : String} {ctx : Ctx} {p : PDU}
    {ps : List PDU} {st st₂ : PTState} (hp : processPDU env origin ctx st p = .ok st₂) :
    processPDUs env origin ctx (p :: ps) st = processPDUs env origin ctx ps st₂ := by
  simp [processPDUs, hp]

/-- Unfolding of the loop at an aborting step. -/
theorem processPDUs_cons_error {env : TxnEnv} {origin : String} {ctx : Ctx} {p : PDU}
    {ps : List PDU} {st : PTState} {r : JSONResponse}
    (hp : processPDU env origin ctx st p = .error r) :
    processPDUs env origin ctx (p :: ps) st = (st, some r) := by
  simp [processPDUs, hp]

/-- The only abort the PDU loop body can produce is the canonical-JSON
response. -/
theorem processPDU_error_eq {env : TxnEnv} {origin : String} {ctx : Ctx} {st : PTState}
    {p : PDU} {r : JSONResponse} (h : processPDU env origin ctx st p = .error r) :
    r = pduBadJSONResponse := by
  unfold processPDU at h
  repeat' split at h
  all_goals simp_all

/-- Lifting of processPDU_error_eq to the whole loop. -/
theorem processPDUs_error_eq {env : TxnEnv} {origin : String} {ctx : Ctx} :
    ∀ {ps : List PDU} {st st₁ : PTState} {r : JSONResponse},
      processPDUs env origin ctx ps st = (st₁, some r) → r = pduBadJSONResponse := by
  intro ps
  induction ps with
  | nil => intro st st₁ r h; simp [processPDUs] at h
  | cons p ps ih =>
    intro st st₁ r h
    cases hp : processPDU env origin ctx st p with
    | error r₁ =>
      rw [processPDUs_cons_error hp] at h
      simp only [Prod.mk.injEq, Option.some.injEq] at h
      exact h.2 ▸ processPDU_error_eq hp
    | ok st₂ =>
      rw [processPDUs_cons_ok hp] at h
      exact ih h

/-- If a prefix of the loop completes without aborting, the loop over the
concatenation continues from the state the prefix reached. -/
theorem processPDUs_append_ok {env : TxnEnv} {origin : String} {ctx : Ctx} {xs : List PDU}
    (ys : List PDU) :
    ∀ {st st₁ : PTState}, processPDUs env origin ctx xs st = (st₁, none) →
      processPDUs env origin ctx (xs ++ ys) st = processPDUs env origin ctx ys st₁ := by
  induction xs with
  | nil =>
    intro st st₁ h
    simp only [processPDUs, Prod.mk.injEq, and_true] at h
    rw [List.nil_append, h]
  | cons p xs ih =>
    intro st st₁ h
    cases hp : processPDU env origin ctx st p with
    | error r =>
      rw [processPDUs_cons_error hp] at h
      simp at h
    | ok st₂ =>
      rw [processPDUs_cons_ok hp] at h
      rw [List.cons_append, processPDUs_cons_ok hp]
      exact ih h

/-- If a prefix of the loop aborts, the loop over the concatenation aborts
identically. -/
theorem processPDUs_append_abort {env : TxnEnv} {origin : String} {ctx : Ctx} {xs : List PDU}
    (ys : List PDU) :
    ∀ {st st₁ : PTState} {r : JSONResponse}, processPDUs env origin ctx xs st = (st₁, some r) →
      processPDUs env origin ctx (xs ++ ys) st = (st₁, some r) := by
  induction xs with
  | nil => intro st st₁ r h; simp [processPDUs] at h
  | cons p xs ih =>
    intro st st₁ r h
    cases hp : processPDU env origin ctx st p with
    | error r₁ =>
      rw [processPDUs_cons_error hp] at h
      rw [List.cons_append, processPDUs_cons_error hp]
      exact h
    | ok st₂ =>
      rw [processPDUs_cons_ok hp] at h
      rw [List.cons_append, processPDUs_cons_ok hp]
      exact ih h

/-- A PDU whose parse under the looked-up room version hits the
BadJSONError branch makes the loop body abort, whatever version the
lookup returned and whatever state the loop is in. -/
theorem processPDU_badJSON_abort (env : TxnEnv) (origin : String) (ctx : Ctx) (st : PTState)
    {p : PDU} {rid : String} {v : RoomVersion}
    (hpeek : p.roomIDPeek = some rid)
    (hver : env.queryRoomVersionForRoom rid = some v)
    (hbad : p.parse v = ParseOutcome.badJSON) :
    processPDU env origin ctx st p = .error pduBadJSONResponse := by
  simp [processPDU, hpeek, hver, hbad]

/-- If any PDU of the list reaches the parse step and fails with the
canonical-JSON error, the whole loop ends in the abort. -/
theorem processPDUs_abort_of_mem (env : TxnEnv) (origin : String) (ctx : Ctx)
    {pdus : List PDU} {p : PDU} {rid : String} {v : RoomVersion}
    (hp : p ∈ pdus) (hpeek : p.roomIDPeek = some rid)
    (hver : env.queryRoomVersionForRoom rid = some v)
    (hbad : p.parse v = ParseOutcome.badJSON) :
    ∀ st₀ : PTState, ∃ st : PTState,
      processPDUs env origin ctx pdus st₀ = (st, some pduBadJSONResponse) := by
  induction pdus with
  | nil => cases hp
  | cons q ps ih =>
    intro st₀
    cases hq : processPDU env origin ctx st₀ q with
    | error r =>
      refine ⟨st₀, ?_⟩
      rw [processPDUs_cons_error hq, processPDU_error_eq hq]
    | ok st₁ =>
      rcases List.mem_cons.mp hp with hqp | hmem
      · rw [← hqp] at hq
        rw [processPDU_badJSON_abort env origin ctx st₀ hpeek hver hbad] at hq
        cases hq
      · rw [processPDUs_cons_ok hq]
        exact ih hmem st₁

/-- C1: if parsing any PDU (under the room version looked up for it)
fails with the canonical-JSON BadJSONError kind, processTransaction
aborts the whole transaction with HTTP 400, errcode M_BAD_JSON and the
error string PDU contains bad JSON — and since the room version v is
universally quantified here, the abort applies regardless of which room
version the PDU was parsed under. -/
theorem pdu_bad_json_aborts_transaction (env : TxnEnv) (origin : String) (ctx : Ctx)
    (pdus : List PDU) (st₀ : PTState) (p : PDU) (rid : String) (v : RoomVersion)
    (hp : p ∈ pdus) (hpeek : p.roomIDPeek = some rid)
    (hver : env.queryRoomVersionForRoom rid = some v)
    (hbad : p.parse v = ParseOutcome.badJSON) :
    (processTransaction env origin ctx pdus st₀).2 =
      Except.error ⟨400, JSONBody.badJSON "PDU contains bad JSON"⟩ := by
  obtain ⟨st, hst⟩ := processPDUs_abort_of_mem env origin ctx hp hpeek hver hbad st₀
  simp [processTransaction, hst, pduBadJSONResponse]

/-- A concrete environment: every room resolves to room version 6, no
server is ACL-banned, every signature verifies. -/
def envOk : TxnEnv :=
  ⟨fun _ => some "6", fun _ _ => false, fun _ => none⟩

/-- A concrete PDU whose canonical-JSON parse fails under every room
version. -/
def pduBad : PDU := ⟨some "!room:remote", fun _ => ParseOutcome.badJSON⟩

/-- Witness for C1 at a concrete one-PDU transaction. -/
theorem pdu_bad_json_aborts_transaction_witness :
    (processTransaction envOk "remote" Ctx.background [pduBad] emptyPT).2 =
      Except.error ⟨400, JSONBody.badJSON "PDU contains bad JSON"⟩ :=
  pdu_bad_json_aborts_transaction envOk "remote" Ctx.background [pduBad] emptyPT pduBad
    "!room:remote" "6" (by simp) rfl rfl rfl

/-- Any abort processTransaction produces is the canonical-JSON response. -/
theorem processTransaction_error_eq {env : TxnEnv} {origin : String} {ctx : Ctx}
    {pdus : List PDU} {st₀ : PTState} {st : PTState} {r : JSONResponse}
    (h : processTransaction env origin ctx pdus st₀ = (st, Except.error r)) :
    r = pduBadJSONResponse := by
  unfold processTransaction at h
  cases hps : processPDUs env origin ctx pdus st₀ with
  | mk st₁ opt =>
    cases opt with
    | none => rw [hps] at h; simp at h
    | some r₁ =>
      rw [hps] at h
      simp only [Prod.mk.injEq, Except.error.injEq] at h
      exact h.2 ▸ processPDUs_error_eq hps

/-- C2: a follower — a caller whose composite (origin, txnID) key is
already in the in-flight registry — waits under a 5-minute timeout
bounded by its own request context (both cancellation and the timer are
the ctxDone event); on ctx.Done it returns HTTP 408, on receiving a
response it returns that response, on observing the closed channel
(zero value, code 0) it returns HTTP 202; it performs no channel or
registry operation (in particular it never deletes the entry) and never
runs processTransaction. -/
theorem follower_contract (env : TxnEnv) (reg : Registry) (requestCtx : Ctx)
    (origin txnID : String) (content : Except String Envelope) (ev : FollowerEvent)
    (w₀ : Workers) (hmem : txnIndex origin txnID ∈ reg) :
    (Send env reg requestCtx origin txnID content ev w₀).processed = false ∧
    (Send env reg requestCtx origin txnID content ev w₀).actions = [] ∧
    (Send env reg requestCtx origin txnID content ev w₀).registry = reg ∧
    (ev = FollowerEvent.ctxDone →
      (Send env reg requestCtx origin txnID content ev w₀).response = ⟨408, JSONBody.empty⟩) ∧
    (∀ res : JSONResponse, ev = FollowerEvent.recv res → res.code = 0 →
      (Send env reg requestCtx origin txnID content ev w₀).response = ⟨202, JSONBody.empty⟩) ∧
    (∀ res : JSONResponse, ev = FollowerEvent.recv res → res.code ≠ 0 →
      (Send env reg requestCtx origin txnID content ev w₀).response = res) := by
  cases ev with
  | ctxDone => simp [Send, if_pos hmem]
  | recv res =>
    by_cases h0 : res.code = 0 <;>
      simp_all [Send, if_pos hmem]

/-- Concrete registry holding one in-flight transaction. -/
def regOne : Registry := [txnIndex "a.example" "t1"]

/-- Witness for C2: a follower receiving the 200 response of the leader. -/
theorem follower_contract_witness :
    txnIndex "a.example" "t1" ∈ regOne ∧
    ((Send envOk regOne (Ctx.request false) "a.example" "t1" (Except.ok ⟨[], []⟩)
        (FollowerEvent.recv ⟨200, JSONBody.respSend []⟩) ⟨[]⟩).processed = false ∧
      (Send envOk regOne (Ctx.request false) "a.example" "t1" (Except.ok ⟨[], []⟩)
        (FollowerEvent.recv ⟨200, JSONBody.respSend []⟩) ⟨[]⟩).actions = [] ∧
      (Send envOk regOne (Ctx.request false) "a.example" "t1" (Except.ok ⟨[], []⟩)
        (FollowerEvent.recv ⟨200, JSONBody.respSend []⟩) ⟨[]⟩).registry = regOne ∧
      (FollowerEvent.recv (⟨200, JSONBody.respSend []⟩ : JSONResponse) = FollowerEvent.ctxDone →
        (Send envOk regOne (Ctx.request false) "a.example" "t1" (Except.ok ⟨[], []⟩)
          (FollowerEvent.recv ⟨200, JSONBody.respSend []⟩) ⟨[]⟩).response = ⟨408, JSONBody.empty⟩) ∧
      (∀ res : JSONResponse,
        FollowerEvent.recv (⟨200, JSONBody.respSend []⟩ : JSONResponse) = FollowerEvent.recv res →
        res.code = 0 →
        (Send envOk regOne (Ctx.request false) "a.example" "t1" (Except.ok ⟨[], []⟩)
          (FollowerEvent.recv ⟨200, JSONBody.respSend []⟩) ⟨[]⟩).response = ⟨202, JSONBody.empty⟩) ∧
      (∀ res : JSONResponse,
        FollowerEvent.recv (⟨200, JSONBody.respSend []⟩ : JSONResponse) = FollowerEvent.recv res →
        res.code ≠ 0 →
        (Send envOk regOne (Ctx.request false) "a.example" "t1" (Except.ok ⟨[], []⟩)
          (FollowerEvent.recv ⟨200, JSONBody.respSend []⟩) ⟨[]⟩).response = res)) :=
  ⟨by simp [regOne],
    follower_contract envOk regOne (Ctx.request false) "a.example" "t1" (Except.ok ⟨[], []⟩)
      (FollowerEvent.recv ⟨200, JSONBody.respSend []⟩) ⟨[]⟩ (by simp [regOne])⟩

/-- C4: a successfully decoded envelope is rejected with 400 M_BAD_JSON
max 50 pdus / 100 edus exactly when the envelope has more than 50 PDUs
or more than 100 EDUs; within the limits the leader goes on to run
processTransaction. -/
theorem size_limit_enforced (env : TxnEnv) (reg : Registry) (requestCtx : Ctx)
    (origin txnID : String) (envl : Envelope) (ev : FollowerEvent) (w₀ : Workers)
    (hfresh : txnIndex origin txnID ∉ reg) :
    ((Send env reg requestCtx origin txnID (Except.ok envl) ev w₀).response =
        ⟨400, JSONBody.badJSON "max 50 pdus / 100 edus"⟩ ↔
      (envl.pdus.length > 50 ∨ envl.edus.length > 100)) ∧
    (envl.pdus.length ≤ 50 ∧ envl.edus.length ≤ 100 →
      (Send env reg requestCtx origin txnID (Except.ok envl) ev w₀).processed = true) := by
  by_cases hbig : envl.pdus.length > 50 ∨ envl.edus.length > 100
  · constructor
    · constructor
      · intro _; exact hbig
      · intro _; simp [Send, if_neg hfresh, if_pos hbig]
    · intro hle
      rcases hbig with hb | hb <;> omega
  · cases hpt : processTransaction env origin Ctx.background envl.pdus ⟨[], [], w₀⟩ with
    | mk st out =>
      cases out with
      | error jsonErr =>
        have herr : jsonErr = pduBadJSONResponse := processTransaction_error_eq hpt
        constructor
        · constructor
          · intro hresp
            exfalso
            rw [show (Send env reg requestCtx origin txnID (Except.ok envl) ev w₀).response
                  = jsonErr by simp [Send, if_neg hfresh, if_neg hbig, hpt]] at hresp
            rw [herr] at hresp
            simp [pduBadJSONResponse] at hresp
          · intro h; exact absurd h hbig
        · intro _
          simp [Send, if_neg hfresh, if_neg hbig, hpt]
      | ok respPDUs =>
        constructor
        · constructor
          · intro hresp
            exfalso
            rw [show (Send env reg requestCtx origin txnID (Except.ok envl) ev w₀).response
                  = ⟨200, JSONBody.respSend respPDUs⟩ by
                simp [Send, if_neg hfresh, if_neg hbig, hpt]] at hresp
            simp at hresp
          · intro h; exact absurd h hbig
        · intro _
          simp [Send, if_neg hfresh, if_neg hbig, hpt]

/-- A PDU that parses cleanly into a well-signed, unbanned event. -/
def pduGood : PDU := ⟨some "!r:x", fun _ => ParseOutcome.ok ⟨"$e:x", "!r:x"⟩⟩

/-- Witness for C4: an envelope with 51 PDUs is rejected; with the
boundary envelope the iff also shows 50 PDUs and 100 EDUs are admitted. -/
theorem size_limit_enforced_witness :
    txnIndex "a.example" "t2" ∉ ([] : Registry) ∧
    (((Send envOk [] (Ctx.request false) "a.example" "t2"
        (Except.ok ⟨List.replicate 51 pduGood, []⟩) FollowerEvent.ctxDone ⟨[]⟩).response =
        ⟨400, JSONBody.badJSON "max 50 pdus / 100 edus"⟩ ↔
      ((List.replicate 51 pduGood).length > 50 ∨ ([] : List EDU).length > 100)) ∧
    ((List.replicate 51 pduGood).length ≤ 50 ∧ ([] : List EDU).length ≤ 100 →
      (Send envOk [] (Ctx.request false) "a.example" "t2"
        (Except.ok ⟨List.replicate 51 pduGood, []⟩) FollowerEvent.ctxDone ⟨[]⟩).processed = true)) :=
  ⟨by simp,
    size_limit_enforced envOk [] (Ctx.request false) "a.example" "t2"
      ⟨List.replicate 51 pduGood, []⟩ FollowerEvent.ctxDone ⟨[]⟩ (by simp)⟩

/-- C3: for two concurrent Send invocations with identical origin and
transaction ID — modelled as the second LoadOrStore observing the
registry while the first is still in flight — exactly the first (the
leader) runs processTransaction; the second (the follower) does not
process and returns either the leader response or 408/202.  The
follower receive is constrained to what the channel can deliver: a
timeout, the value the leader sent, or the zero value of the closed
channel. -/
theorem dedup_exactly_one_leader (env : TxnEnv) (reg : Registry) (ctx₁ ctx₂ : Ctx)
    (origin txnID : String) (envl : Envelope) (ev₁ ev₂ : FollowerEvent) (w₀ : Workers)
    (hfresh : txnIndex origin txnID ∉ reg)
    (hsize : envl.pdus.length ≤ 50 ∧ envl.edus.length ≤ 100)
    (hev : ev₂ = FollowerEvent.ctxDone ∨
      ev₂ = FollowerEvent.recv
        (Send env reg ctx₁ origin txnID (Except.ok envl) ev₁ w₀).response ∨
      ev₂ = FollowerEvent.recv ⟨0, JSONBody.empty⟩) :
    (Send env reg ctx₁ origin txnID (Except.ok envl) ev₁ w₀).processed = true ∧
    (Send env (txnIndex origin txnID :: reg) ctx₂ origin txnID
        (Except.ok envl) ev₂ w₀).processed = false ∧
    ((Send env (txnIndex origin txnID :: reg) ctx₂ origin txnID
        (Except.ok envl) ev₂ w₀).response =
        (Send env reg ctx₁ origin txnID (Except.ok envl) ev₁ w₀).response ∨
      (Send env (txnIndex origin txnID :: reg) ctx₂ origin txnID
        (Except.ok envl) ev₂ w₀).response = ⟨408, JSONBody.empty⟩ ∨
      (Send env (txnIndex origin txnID :: reg) ctx₂ origin txnID
        (Except.ok envl) ev₂ w₀).response = ⟨202, JSONBody.empty⟩) := by
  have hbig : ¬ (envl.pdus.length > 50 ∨ envl.edus.length > 100) := by omega
  have hmem : txnIndex origin txnID ∈ txnIndex origin txnID :: reg :=
    List.mem_cons_self _ _
  refine ⟨?_, ?_, ?_⟩
  · cases hpt : processTransaction env origin Ctx.background envl.pdus ⟨[], [], w₀⟩ with
    | mk st out =>
      cases out with
      | error jsonErr => simp [Send, if_neg hfresh, if_neg hbig, hpt]
      | ok respPDUs => simp [Send, if_neg hfresh, if_neg hbig, hpt]
  · cases ev₂ with
    | ctxDone => simp [Send, if_pos hmem]
    | recv res =>
      by_cases h0 : res.code = 0 <;> simp [Send, if_pos hmem, h0]
  · rcases hev with hev | hev | hev
    · subst hev
      right; left
      simp [Send, if_pos hmem]
    · subst hev
      generalize (Send env reg ctx₁ origin txnID (Except.ok envl) ev₁ w₀).response = lres
      by_cases h0 : lres.code = 0
      · right; right
        simp [Send, if_pos hmem, h0]
      · left
        simp [Send, if_pos hmem, h0]
    · subst hev
      right; right
      simp [Send, if_pos hmem]

/-- Witness for C3 at a concrete empty transaction retransmitted while
in flight, the follower giving up on its context. -/
theorem dedup_exactly_one_leader_witness :
    txnIndex "a.example" "t1" ∉ ([] : Registry) ∧
    (((Envelope.mk [] []).pdus.length ≤ 50 ∧ (Envelope.mk [] []).edus.length ≤ 100) ∧
    ((Send envOk [] (Ctx.request false) "a.example" "t1"
        (Except.ok ⟨[], []⟩) FollowerEvent.ctxDone ⟨[]⟩).processed = true ∧
      (Send envOk (txnIndex "a.example" "t1" :: []) (Ctx.request true) "a.example" "t1"
        (Except.ok ⟨[], []⟩) FollowerEvent.ctxDone ⟨[]⟩).processed = false ∧
      ((Send envOk (txnIndex "a.example" "t1" :: []) (Ctx.request true) "a.example" "t1"
          (Except.ok ⟨[], []⟩) FollowerEvent.ctxDone ⟨[]⟩).response =
          (Send envOk [] (Ctx.request false) "a.example" "t1"
            (Except.ok ⟨[], []⟩) FollowerEvent.ctxDone ⟨[]⟩).response ∨
        (Send envOk (txnIndex "a.example" "t1" :: []) (Ctx.request true) "a.example" "t1"
          (Except.ok ⟨[], []⟩) FollowerEvent.ctxDone ⟨[]⟩).response = ⟨408, JSONBody.empty⟩ ∨
        (Send envOk (txnIndex "a.example" "t1" :: []) (Ctx.request true) "a.example" "t1"
          (Except.ok ⟨[], []⟩) FollowerEvent.ctxDone ⟨[]⟩).response = ⟨202, JSONBody.empty⟩))) :=
  ⟨by simp, by decide,
    dedup_exactly_one_leader envOk [] (Ctx.request false) (Ctx.request true) "a.example" "t1"
      ⟨[], []⟩ FollowerEvent.ctxDone FollowerEvent.ctxDone ⟨[]⟩ (by simp) (by decide)
      (Or.inl rfl)⟩

/-- The ordering property claim C7 asserts of the leader teardown: every
close of the result channel occurs strictly before every delete of the
registry entry in the action trace. -/
def ClosedBeforeDeleted (acts : List RegAction) : Prop :=
  ∀ (i j : Nat) (key : String), acts.get? i = some RegAction.close →
    acts.get? j = some (RegAction.delete key) → i < j

/-- Counterexample to C7 as stated: deferred calls run in reverse
registration order, so a leader aborting on a bad envelope deletes its
registry entry at position 0 of the trace and closes the channel at
position 1 — the delete strictly precedes the close. -/
theorem leader_defer_order_counterexample :
    ¬ ClosedBeforeDeleted (Send envOk [] (Ctx.request false) "a.example" "t1"
        (Except.error "unexpected end of JSON input") FollowerEvent.ctxDone ⟨[]⟩).actions := by
  intro h
  have h10 := h 1 0 (txnIndex "a.example" "t1") (by decide) (by decide)
  omega

/-- C7 amended: whenever the leader finishes — with a final response
(sent on the channel) or without one — it first deletes its in-flight
registry entry and only then closes the result channel, the deferred
calls running in reverse registration order; the channel is always
closed, always last, and any send precedes both. -/
theorem leader_delete_then_close (env : TxnEnv) (reg : Registry) (requestCtx : Ctx)
    (origin txnID : String) (content : Except String Envelope) (ev : FollowerEvent)
    (w₀ : Workers) (hfresh : txnIndex origin txnID ∉ reg) :
    (Send env reg requestCtx origin txnID content ev w₀).actions =
        [RegAction.delete (txnIndex origin txnID), RegAction.close] ∨
    ∃ res : JSONResponse, (Send env reg requestCtx origin txnID content ev w₀).actions =
        [RegAction.send res, RegAction.delete (txnIndex origin txnID), RegAction.close] := by
  cases content with
  | error e =>
    left
    simp [Send, if_neg hfresh]
  | ok envl =>
    by_cases hbig : envl.pdus.length > 50 ∨ envl.edus.length > 100
    · left
      simp [Send, if_neg hfresh, if_pos hbig]
    · cases hpt : processTransaction env origin Ctx.background envl.pdus ⟨[], [], w₀⟩ with
      | mk st out =>
        cases out with
        | error jsonErr =>
          left
          simp [Send, if_neg hfresh, if_neg hbig, hpt]
        | ok respPDUs =>
          right
          exact ⟨⟨200, JSONBody.respSend respPDUs⟩,
            by simp [Send, if_neg hfresh, if_neg hbig, hpt]⟩

/-- Witness for the amended C7 at a concrete successful leader run. -/
theorem leader_delete_then_close_witness :
    txnIndex "a.example" "t3" ∉ ([] : Registry) ∧
    ((Send envOk [] (Ctx.request false) "a.example" "t3"
        (Except.ok ⟨[], []⟩) FollowerEvent.ctxDone ⟨[]⟩).actions =
        [RegAction.delete (txnIndex "a.example" "t3"), RegAction.close] ∨
      ∃ res : JSONResponse, (Send envOk [] (Ctx.request false) "a.example" "t3"
        (Except.ok ⟨[], []⟩) FollowerEvent.ctxDone ⟨[]⟩).actions =
        [RegAction.send res, RegAction.delete (txnIndex "a.example" "t3"), RegAction.close]) :=
  ⟨by simp,
    leader_delete_then_close envOk [] (Ctx.request false) "a.example" "t3"
      (Except.ok ⟨[], []⟩) FollowerEvent.ctxDone ⟨[]⟩ (by simp)⟩

/-- C6: the source MakeInternalProxyAPI only accepts handlers of shape
func(ctx, *Req) with no return values and, for every decoded request,
serialises the decoded request itself at HTTP 200, regardless of the
handler — no Res value is ever serialised and no handler error can ever
be wrapped in a federation-client-error envelope.  This contradicts the
claimed (ctx, *Req) to (*Res, error) shape, which is exactly what every
AddRoutes call site passes and what the spec-modelled helper
makeInternalProxyAPISpec implements: at the same concrete input, with a
handler that fails, the spec-modelled helper answers with the error
envelope while the source helper answers 200 echoing the request. -/
theorem proxy_api_divergence :
    (∀ (f : String → Unit) (r : String),
      MakeInternalProxyAPI String String (Except.ok r) f = ⟨200, ProxyBody.request r⟩) ∧
    (∀ (f : String → Unit) (e : String),
      MakeInternalProxyAPI String String (Except.error e) f = ⟨400, ProxyBody.decodeError e⟩) ∧
    makeInternalProxyAPISpec String String (Except.ok "req")
      (fun _ => Except.error "boom") = ⟨500, ProxyBody.fedError "boom"⟩ ∧
    MakeInternalProxyAPI String String (Except.ok "req") (fun _ => ()) ≠
      makeInternalProxyAPISpec String String (Except.ok "req") (fun _ => Except.error "boom") := by
  refine ⟨fun f r => rfl, fun f e => rfl, rfl, ?_⟩
  decide

/-- C10: AddRoutes registers the GetUserDevices proxy handler under
FederationAPIPerformJoinRequestPath, the same path used by the
PerformJoinRequest registration immediately before it; gorilla/mux
resolves routes in registration order, so no path resolves to the
GetUserDevices handler and no dedicated GetUserDevices path exists in
the table. -/
theorem get_user_devices_route_shadowed :
    resolveRoute addRoutes RoutePath.performJoinRequest = some "PerformJoinRequest" ∧
    addRoutes.filter (fun x => x.2 == "GetUserDevices") =
      [(RoutePath.performJoinRequest, "GetUserDevices")] ∧
    ∀ p : RoutePath, resolveRoute addRoutes p ≠ some "GetUserDevices" := by
  refine ⟨by decide, by decide, ?_⟩
  intro p
  cases p <;> decide

/-! ## Invariant machinery for the loop state -/

/-- The event a PDU contributes, following the same peek, version lookup
and parse steps as the loop body. -/
def PDU.eventUnder (env : TxnEnv) (p : PDU) : Option Event :=
  match p.roomIDPeek with
  | none => none
  | some rid =>
    match env.queryRoomVersionForRoom rid with
    | none => none
    | some v =>
      match p.parse v with
      | ParseOutcome.ok e => some e
      | _ => none

/-- Exhaustive description of a non-aborting loop step: it leaves the
state unchanged, records an ACL result, records a signature-failure
result, or enqueues a task for an event that passed both checks. -/
theorem processPDU_ok_cases {env : TxnEnv} {origin : String} {ctx : Ctx}
    {st st₁ : PTState} {q : PDU}
    (h : processPDU env origin ctx st q = Except.ok st₁) :
    st₁ = st ∨
    (∃ e : Event, PDU.eventUnder env q = some e ∧
      env.isServerBannedFromRoom e.roomID origin = true ∧
      st₁ = { st with results := mapSet st.results e.eventID "Forbidden by server ACLs" }) ∨
    (∃ (e : Event) (s : String), PDU.eventUnder env q = some e ∧
      env.isServerBannedFromRoom e.roomID origin = false ∧
      env.verifyEventSignatures e = some s ∧
      st₁ = { st with results := mapSet st.results e.eventID s }) ∨
    (∃ (e : Event) (v : RoomVersion) (rid : String), q.roomIDPeek = some rid ∧
      env.queryRoomVersionForRoom rid = some v ∧ q.parse v = ParseOutcome.ok e ∧
      PDU.eventUnder env q = some e ∧
      env.isServerBannedFromRoom e.roomID origin = false ∧
      env.verifyEventSignatures e = none ∧
      st₁ = { st with tasks := st.tasks ++ [⟨ctx, e, v⟩],
                      workers := st.workers.push e.roomID ⟨ctx, e, v⟩ }) := by
  cases hpeek : q.roomIDPeek with
  | none =>
    have hcomp : processPDU env origin ctx st q = Except.ok st := by
      simp [processPDU, hpeek]
    rw [hcomp] at h
    injection h with h₁
    exact Or.inl h₁.symm
  | some rid =>
    cases hver : env.queryRoomVersionForRoom rid with
    | none =>
      have hcomp : processPDU env origin ctx st q = Except.ok st := by
        simp [processPDU, hpeek, hver]
      rw [hcomp] at h
      injection h with h₁
      exact Or.inl h₁.symm
    | some v =>
      cases hparse : q.parse v with
      | badJSON =>
        have hcomp : processPDU env origin ctx st q = Except.error pduBadJSONResponse := by
          simp [processPDU, hpeek, hver, hparse]
        rw [hcomp] at h
        simp at h
      | otherError =>
        have hcomp : processPDU env origin ctx st q = Except.ok st := by
          simp [processPDU, hpeek, hver, hparse]
        rw [hcomp] at h
        injection h with h₁
        exact Or.inl h₁.symm
      | ok e =>
        have hEU : PDU.eventUnder env q = some e := by
          simp [PDU.eventUnder, hpeek, hver, hparse]
        cases hban : env.isServerBannedFromRoom e.roomID origin with
        | true =>
          have hcomp : processPDU env origin ctx st q =
              Except.ok { st with
                results := mapSet st.results e.eventID "Forbidden by server ACLs" } := by
            simp [processPDU, hpeek, hver, hparse, hban]
          rw [hcomp] at h
          injection h with h₁
          exact Or.inr (Or.inl ⟨e, hEU, hban, h₁.symm⟩)
        | false =>
          cases hsig : env.verifyEventSignatures e with
          | some s =>
            have hcomp : processPDU env origin ctx st q =
                Except.ok { st with results := mapSet st.results e.eventID s } := by
              simp [processPDU, hpeek, hver, hparse, hban, hsig]
            rw [hcomp] at h
            injection h with h₁
            exact Or.inr (Or.inr (Or.inl ⟨e, s, hEU, hban, hsig, h₁.symm⟩))
          | none =>
            have hcomp : processPDU env origin ctx st q =
                Except.ok { st with
                  tasks := st.tasks ++ [⟨ctx, e, v⟩],
                  workers := st.workers.push e.roomID ⟨ctx, e, v⟩ } := by
              simp [processPDU, hpeek, hver, hparse, hban, hsig]
            rw [hcomp] at h
            injection h with h₁
            exact Or.inr (Or.inr (Or.inr ⟨e, v, rid, rfl, hver, hparse, hEU, hban, hsig,
              h₁.symm⟩))

/-- A task found in a queue after a push was either already queued or is
the pushed task. -/
theorem mem_pushQueue {qs : List (String × List InputTask)} {room : String}
    {task t : InputTask} {entry : String × List InputTask}
    (he : entry ∈ pushQueue qs room task) (ht : t ∈ entry.2) :
    (∃ e₁ ∈ qs, t ∈ e₁.2) ∨ t = task := by
  induction qs with
  | nil =>
    simp only [pushQueue, List.mem_singleton] at he
    subst he
    have ht₁ : t ∈ [task] := ht
    right
    simpa using ht₁
  | cons hd rest ih =>
    obtain ⟨r, qlist⟩ := hd
    simp only [pushQueue] at he
    by_cases hr : r = room
    · rw [if_pos hr] at he
      rcases List.mem_cons.mp he with he₁ | he₂
      · subst he₁
        have ht₁ : t ∈ qlist ++ [task] := ht
        rcases List.mem_append.mp ht₁ with h₁ | h₂
        · exact Or.inl ⟨(r, qlist), List.mem_cons_self _ _, h₁⟩
        · right
          simpa using h₂
      · exact Or.inl ⟨entry, List.mem_cons_of_mem _ he₂, ht⟩
    · rw [if_neg hr] at he
      rcases List.mem_cons.mp he with he₁ | he₂
      · subst he₁
        exact Or.inl ⟨(r, qlist), List.mem_cons_self _ _, ht⟩
      · rcases ih he₂ with ⟨e₁, he₁, ht₁⟩ | hte
        · exact Or.inl ⟨e₁, List.mem_cons_of_mem _ he₁, ht₁⟩
        · exact Or.inr hte

/-- A property of tasks that holds for everything already in the state
and for every task the loop can enqueue is preserved by the whole loop,
on the local tasks slice and on the worker queues alike. -/
theorem processPDUs_tasks_inv {env : TxnEnv} {origin : String} {ctx : Ctx}
    (P : InputTask → Prop) :
    ∀ (pdus : List PDU) (st st₁ : PTState) (r : Option JSONResponse),
      processPDUs env origin ctx pdus st = (st₁, r) →
      (∀ q ∈ pdus, ∀ (rid : String) (v : RoomVersion) (e : Event), q.roomIDPeek = some rid →
        env.queryRoomVersionForRoom rid = some v → q.parse v = ParseOutcome.ok e →
        env.isServerBannedFromRoom e.roomID origin = false →
        env.verifyEventSignatures e = none → P ⟨ctx, e, v⟩) →
      (∀ t ∈ st.tasks, P t) →
      (∀ entry ∈ st.workers.queues, ∀ t ∈ entry.2, P t) →
      (∀ t ∈ st₁.tasks, P t) ∧ (∀ entry ∈ st₁.workers.queues, ∀ t ∈ entry.2, P t) := by
  intro pdus
  induction pdus with
  | nil =>
    intro st st₁ r h _ h0t h0w
    simp only [processPDUs, Prod.mk.injEq] at h
    rw [← h.1]
    exact ⟨h0t, h0w⟩
  | cons q ps ih =>
    intro st st₁ r h hP h0t h0w
    cases hq : processPDU env origin ctx st q with
    | error r₁ =>
      rw [processPDUs_cons_error hq] at h
      injection h with h₁ h₂
      rw [← h₁]
      exact ⟨h0t, h0w⟩
    | ok st₂ =>
      rw [processPDUs_cons_ok hq] at h
      have hstep : (∀ t ∈ st₂.tasks, P t) ∧ (∀ entry ∈ st₂.workers.queues, ∀ t ∈ entry.2, P t) := by
        rcases processPDU_ok_cases hq with h₁ | ⟨e, _, _, h₁⟩ | ⟨e, s, _, _, _, h₁⟩ |
          ⟨e, v, rid, hpeek, hver, hparse, _, hban, hsig, h₁⟩
        · rw [h₁]; exact ⟨h0t, h0w⟩
        · rw [h₁]; exact ⟨h0t, h0w⟩
        · rw [h₁]; exact ⟨h0t, h0w⟩
        · rw [h₁]
          have hPnew : P ⟨ctx, e, v⟩ :=
            hP q (List.mem_cons_self _ _) rid v e hpeek hver hparse hban hsig
          constructor
          · intro t ht
            rcases List.mem_append.mp ht with h₂ | h₂
            · exact h0t t h₂
            · rw [List.mem_singleton.mp h₂]
              exact hPnew
          · intro entry hentry t ht
            rcases mem_pushQueue hentry ht with ⟨e₁, he₁, ht₁⟩ | hte
            · exact h0w e₁ he₁ t ht₁
            · rw [hte]
              exact hPnew
      exact ih st₂ st₁ r h (fun q₁ hq₁ => hP q₁ (List.mem_cons_of_mem _ hq₁)) hstep.1 hstep.2

/-- A loop step cannot change the binding of a key that no event
contributed by the PDU carries. -/
theorem processPDU_results_preserved {env : TxnEnv} {origin : String} {ctx : Ctx}
    {st st₁ : PTState} {q : PDU} {k : String}
    (h : processPDU env origin ctx st q = Except.ok st₁)
    (hk : ∀ e₁ : Event, PDU.eventUnder env q = some e₁ → e₁.eventID ≠ k) :
    mapGet st₁.results k = mapGet st.results k := by
  rcases processPDU_ok_cases h with h₁ | ⟨e, hEU, _, h₁⟩ | ⟨e, s, hEU, _, _, h₁⟩ |
    ⟨e, v, rid, _, _, _, _, _, _, h₁⟩
  · rw [h₁]
  · rw [h₁]; exact mapGet_mapSet_ne _ _ _ _ (hk e hEU)
  · rw [h₁]; exact mapGet_mapSet_ne _ _ _ _ (hk e hEU)
  · rw [h₁]

/-- Lifting of the key-preservation to the whole loop. -/
theorem processPDUs_results_preserved {env : TxnEnv} {origin : String} {ctx : Ctx}
    {k : String} :
    ∀ {ps : List PDU} {st st₁ : PTState} {r : Option JSONResponse},
      processPDUs env origin ctx ps st = (st₁, r) →
      (∀ q ∈ ps, ∀ e₁ : Event, PDU.eventUnder env q = some e₁ → e₁.eventID ≠ k) →
      mapGet st₁.results k = mapGet st.results k := by
  intro ps
  induction ps with
  | nil =>
    intro st st₁ r h _
    simp only [processPDUs, Prod.mk.injEq] at h
    rw [← h.1]
  | cons q qs ih =>
    intro st st₁ r h hq
    cases hstep : processPDU env origin ctx st q with
    | error r₁ =>
      rw [processPDUs_cons_error hstep] at h
      injection h with h₁ h₂
      rw [← h₁]
    | ok st₂ =>
      rw [processPDUs_cons_ok hstep] at h
      rw [ih h (fun q₁ hq₁ => hq q₁ (List.mem_cons_of_mem _ hq₁))]
      exact processPDU_results_preserved hstep (hq q (List.mem_cons_self _ _))

/-- The aggregation pass leaves untouched every key no completed task
carries. -/
theorem mapGet_foldl_tasks (k : String) :
    ∀ (tasks : List InputTask) (m : List (String × String)),
      (∀ t ∈ tasks, t.event.eventID ≠ k) →
      mapGet (tasks.foldl (fun m₁ task => mapSet m₁ task.event.eventID "") m) k = mapGet m k := by
  intro tasks
  induction tasks with
  | nil => intro m _; rfl
  | cons t ts ih =>
    intro m hne
    rw [List.foldl_cons,
      ih (mapSet m t.event.eventID "") (fun t₁ ht₁ => hne t₁ (List.mem_cons_of_mem _ ht₁))]
    exact mapGet_mapSet_ne _ _ _ _ (hne t (List.mem_cons_self _ _))

/-- processTransaction changes no worker queue beyond what the PDU loop
did. -/
theorem processTransaction_workers_eq (env : TxnEnv) (origin : String) (ctx : Ctx)
    (pdus : List PDU) (st₀ : PTState) :
    (processTransaction env origin ctx pdus st₀).1.workers =
      (processPDUs env origin ctx pdus st₀).1.workers := by
  unfold processTransaction
  cases h : processPDUs env origin ctx pdus st₀ with
  | mk st r => cases r <;> simp

/-- processTransaction returns the task slice the PDU loop built. -/
theorem processTransaction_tasks_eq (env : TxnEnv) (origin : String) (ctx : Ctx)
    (pdus : List PDU) (st₀ : PTState) :
    (processTransaction env origin ctx pdus st₀).1.tasks =
      (processPDUs env origin ctx pdus st₀).1.tasks := by
  unfold processTransaction
  cases h : processPDUs env origin ctx pdus st₀ with
  | mk st r => cases r <;> simp

/-! ## Worker loop lemmas -/

/-- A task whose stored context is already done is failed with the
deadline-exceeded sentinel and counted as expired, without running
processEvent. -/
theorem runTask_cancelled {rs : RSEnv} {t : InputTask} {m : Metrics}
    (h : t.ctx.isCancelled = true) :
    runTask rs t m = (⟨some TaskErr.deadlineExceeded, false⟩,
      { m with expired := m.expired + 1 }) := by
  simp [runTask, h]

/-- A task whose stored context is live is always submitted to the
roomserver, and the expired counter is untouched. -/
theorem runTask_uncancelled {rs : RSEnv} {t : InputTask} {m : Metrics}
    (h : t.ctx.isCancelled = false) :
    (runTask rs t m).1.submitted = true ∧ (runTask rs t m).2.expired = m.expired := by
  cases hpe : processEvent rs t.event <;> simp [runTask, h, hpe]

/-- Every record the worker produces corresponds to a task of its queue. -/
theorem mem_runWorker_fst {rs : RSEnv} :
    ∀ {queue : List InputTask} {m : Metrics} {x : InputTask × TaskResult},
      x ∈ (runWorker rs queue m).1 → x.1 ∈ queue := by
  intro queue
  induction queue with
  | nil => intro m x hx; simp [runWorker] at hx
  | cons t ts ih =>
    intro m x hx
    simp only [runWorker, List.mem_cons] at hx
    rcases hx with hx | hx
    · rw [hx]
      exact List.mem_cons_self _ _
    · exact List.mem_cons_of_mem _ (ih hx)

/-- Every submitted event comes from a task of the queue. -/
theorem mem_submittedEvents {rs : RSEnv} {queue : List InputTask} {m : Metrics} {e : Event}
    (he : e ∈ submittedEvents rs queue m) : ∃ t ∈ queue, t.event = e := by
  simp only [submittedEvents, List.mem_map, List.mem_filter] at he
  obtain ⟨x, ⟨hx, -⟩, hev⟩ := he
  exact ⟨x.1, mem_runWorker_fst hx, hev⟩

/-- A queue of tasks whose stored contexts are all live is submitted to
the roomserver in full, in order. -/
theorem submittedEvents_of_uncancelled {rs : RSEnv} :
    ∀ {queue : List InputTask} {m : Metrics},
      (∀ t ∈ queue, t.ctx.isCancelled = false) →
      submittedEvents rs queue m = queue.map (fun t => t.event) := by
  intro queue
  induction queue with
  | nil => intro m _; rfl
  | cons t ts ih =>
    intro m hun
    have hsub : (runTask rs t m).1.submitted = true :=
      (runTask_uncancelled (hun t (List.mem_cons_self _ _))).1
    have ihts := ih (m := (runTask rs t m).2)
      (fun t₁ ht₁ => hun t₁ (List.mem_cons_of_mem _ ht₁))
    simp only [submittedEvents, runWorker] at ihts ⊢
    rw [List.filter_cons]
    simp only [hsub, if_pos]
    rw [List.map_cons, List.map_cons, ihts]

/-- Counterexample to C8 as stated: Send hands processTransaction a
fresh context.Background(), not the request context of the caller, so
the task enqueued for a PDU carries the background context even though
the request arrived under a distinct, live request context. -/
theorem task_ctx_counterexample :
    (Send envOk [] (Ctx.request false) "remote" "t1"
        (Except.ok ⟨[pduGood], []⟩) FollowerEvent.ctxDone ⟨[]⟩).workers.queues =
      [("!r:x", [⟨Ctx.background, ⟨"$e:x", "!r:x"⟩, "6"⟩])] ∧
    ¬ (∀ entry ∈ (Send envOk [] (Ctx.request false) "remote" "t1"
          (Except.ok ⟨[pduGood], []⟩) FollowerEvent.ctxDone ⟨[]⟩).workers.queues,
        ∀ t ∈ entry.2, t.ctx = Ctx.request false) := by
  decide

/-- C8 amended: every InputTask enqueued for a PDU carries the context
processTransaction was invoked with, which Send fixes to a fresh
context.Background() detached from the request context of the caller
(so in practice it is never cancelled); the worker still checks that
stored context before invoking processEvent on each loop iteration —
if it is already cancelled the task is failed with the
deadline-exceeded sentinel and the expired counter of recv_pdus is
incremented without doing the work, otherwise the event is processed
(submitted to the roomserver) under a fresh 5-minute timeout detached
from the stored context, leaving the expired counter unchanged. -/
theorem input_task_ctx_and_worker_check (env : TxnEnv) (reg : Registry) (requestCtx : Ctx)
    (origin txnID : String) (envl : Envelope) (ev : FollowerEvent)
    (hfresh : txnIndex origin txnID ∉ reg) :
    (∀ entry ∈ (Send env reg requestCtx origin txnID (Except.ok envl) ev ⟨[]⟩).workers.queues,
      ∀ t ∈ entry.2, t.ctx = Ctx.background) ∧
    (∀ (rs : RSEnv) (m : Metrics) (t : InputTask), t.ctx.isCancelled = true →
      runTask rs t m = (⟨some TaskErr.deadlineExceeded, false⟩,
        { m with expired := m.expired + 1 })) ∧
    (∀ (rs : RSEnv) (m : Metrics) (t : InputTask), t.ctx.isCancelled = false →
      (runTask rs t m).1.submitted = true ∧ (runTask rs t m).2.expired = m.expired) := by
  refine ⟨?_, fun rs m t h => runTask_cancelled h, fun rs m t h => runTask_uncancelled h⟩
  by_cases hbig : envl.pdus.length > 50 ∨ envl.edus.length > 100
  · intro entry hentry
    rw [show (Send env reg requestCtx origin txnID (Except.ok envl) ev ⟨[]⟩).workers
        = (⟨[]⟩ : Workers) by simp [Send, if_neg hfresh, if_pos hbig]] at hentry
    simp at hentry
  · have hw : (Send env reg requestCtx origin txnID (Except.ok envl) ev ⟨[]⟩).workers =
        (processTransaction env origin Ctx.background envl.pdus ⟨[], [], ⟨[]⟩⟩).1.workers := by
      cases hpt : processTransaction env origin Ctx.background envl.pdus ⟨[], [], ⟨[]⟩⟩ with
      | mk st out => cases out <;> simp [Send, if_neg hfresh, if_neg hbig, hpt]
    rw [hw, processTransaction_workers_eq]
    cases hps : processPDUs env origin Ctx.background envl.pdus ⟨[], [], ⟨[]⟩⟩ with
    | mk st₂ r =>
      have hinv := (processPDUs_tasks_inv (P := fun t => t.ctx = Ctx.background)
        envl.pdus ⟨[], [], ⟨[]⟩⟩ st₂ r hps
        (fun q _ rid v e _ _ _ _ _ => rfl)
        (by intro t ht; simp at ht)
        (by intro entry hentry; simp at hentry)).2
      intro entry hentry t ht
      exact hinv entry hentry t ht

/-- Witness for the amended C8 at a concrete one-PDU transaction arriving
under a live request context. -/
theorem input_task_ctx_and_worker_check_witness :
    txnIndex "remote" "t1" ∉ ([] : Registry) ∧
    ((∀ entry ∈ (Send envOk [] (Ctx.request false) "remote" "t1"
        (Except.ok ⟨[pduGood], []⟩) FollowerEvent.ctxDone ⟨[]⟩).workers.queues,
      ∀ t ∈ entry.2, t.ctx = Ctx.background) ∧
    (∀ (rs : RSEnv) (m : Metrics) (t : InputTask), t.ctx.isCancelled = true →
      runTask rs t m = (⟨some TaskErr.deadlineExceeded, false⟩,
        { m with expired := m.expired + 1 })) ∧
    (∀ (rs : RSEnv) (m : Metrics) (t : InputTask), t.ctx.isCancelled = false →
      (runTask rs t m).1.submitted = true ∧ (runTask rs t m).2.expired = m.expired)) :=
  ⟨by simp,
    input_task_ctx_and_worker_check envOk [] (Ctx.request false) "remote" "t1"
      ⟨[pduGood], []⟩ FollowerEvent.ctxDone (by simp)⟩

/-- C9: the canonical-JSON abort is not atomic — when a PDU after the
first fails canonical-JSON parsing, processTransaction returns the
HTTP 400 abort with the state reached so far: the response is the fixed
error body and carries none of the per-PDU results already collected,
while the tasks already enqueued for earlier PDUs stay on the worker
queues, and a worker draining such a queue (whose stored background
contexts are never cancelled) submits every one of those earlier events
to the roomserver. -/
theorem bad_json_abort_not_atomic (env : TxnEnv) (origin : String)
    (pre rest : List PDU) (pbad : PDU) (rid : String) (v : RoomVersion) (st₁ : PTState)
    (hpre : processPDUs env origin Ctx.background pre emptyPT = (st₁, none))
    (hpeek : pbad.roomIDPeek = some rid)
    (hver : env.queryRoomVersionForRoom rid = some v)
    (hbad : pbad.parse v = ParseOutcome.badJSON) :
    processTransaction env origin Ctx.background (pre ++ pbad :: rest) emptyPT =
      (st₁, Except.error ⟨400, JSONBody.badJSON "PDU contains bad JSON"⟩) ∧
    (∀ entry ∈ st₁.workers.queues, ∀ (rs : RSEnv) (m : Metrics),
      submittedEvents rs entry.2 m = entry.2.map (fun t => t.event)) := by
  constructor
  · have hloop : processPDUs env origin Ctx.background (pre ++ pbad :: rest) emptyPT =
        (st₁, some pduBadJSONResponse) := by
      rw [processPDUs_append_ok _ hpre, processPDUs_cons_error
        (processPDU_badJSON_abort env origin Ctx.background st₁ hpeek hver hbad)]
    simp [processTransaction, hloop, pduBadJSONResponse]
  · have hinv := (processPDUs_tasks_inv (P := fun t => t.ctx = Ctx.background)
      pre emptyPT st₁ none hpre
      (fun q _ rid₁ v₁ e _ _ _ _ _ => rfl)
      (by intro t ht; simp [emptyPT] at ht)
      (by intro entry hentry; simp [emptyPT] at hentry)).2
    intro entry hentry rs m
    exact submittedEvents_of_uncancelled
      (fun t ht => by rw [hinv entry hentry t ht]; rfl)

/-- The task the C9 witness transaction enqueues for its first PDU. -/
def taskW : InputTask := ⟨Ctx.background, ⟨"$e:x", "!r:x"⟩, "6"⟩

/-- The loop state after the first (clean) PDU of the C9 witness. -/
def stW : PTState := ⟨[], [taskW], ⟨[("!r:x", [taskW])]⟩⟩

/-- Witness for C9: a clean PDU followed by a canonical-JSON-bad PDU. -/
theorem bad_json_abort_not_atomic_witness :
    processPDUs envOk "remote" Ctx.background [pduGood] emptyPT = (stW, none) ∧
    (processTransaction envOk "remote" Ctx.background ([pduGood] ++ pduBad :: []) emptyPT =
      (stW, Except.error ⟨400, JSONBody.badJSON "PDU contains bad JSON"⟩) ∧
    (∀ entry ∈ stW.workers.queues, ∀ (rs : RSEnv) (m : Metrics),
      submittedEvents rs entry.2 m = entry.2.map (fun t => t.event))) :=
  ⟨rfl,
    bad_json_abort_not_atomic envOk "remote" [pduGood] [] pduBad "!room:remote" "6" stW
      rfl rfl rfl rfl⟩

/-! ## Per-PDU ACL and signature results (C5) -/

/-- An event that fails the ACL check or the signature check is never
enqueued: neither the tasks slice nor any worker queue ever holds a task
whose event ID matches it, provided no other PDU of the transaction
contributes an event with that ID. -/
theorem blocked_event_not_enqueued (env : TxnEnv) (origin : String)
    (pre post : List PDU) (p : PDU) (rid : String) (v : RoomVersion) (e : Event)
    (hpeek : p.roomIDPeek = some rid)
    (hver : env.queryRoomVersionForRoom rid = some v)
    (hparse : p.parse v = ParseOutcome.ok e)
    (huniq : ∀ q ∈ pre ++ post, ∀ e₁ : Event, PDU.eventUnder env q = some e₁ →
      e₁.eventID ≠ e.eventID)
    (hblocked : env.isServerBannedFromRoom e.roomID origin = true ∨
      ∃ s : String, env.verifyEventSignatures e = some s) :
    ∀ {st₁ : PTState} {r : Option JSONResponse},
      processPDUs env origin Ctx.background (pre ++ p :: post) emptyPT = (st₁, r) →
      (∀ t ∈ st₁.tasks, t.event.eventID ≠ e.eventID) ∧
      (∀ entry ∈ st₁.workers.queues, ∀ t ∈ entry.2, t.event.eventID ≠ e.eventID) := by
  intro st₁ r hps
  have hEU : PDU.eventUnder env p = some e := by
    simp [PDU.eventUnder, hpeek, hver, hparse]
  have hinv := processPDUs_tasks_inv
    (P := fun t => env.isServerBannedFromRoom t.event.roomID origin = false ∧
      env.verifyEventSignatures t.event = none ∧
      ∃ q ∈ pre ++ p :: post, PDU.eventUnder env q = some t.event)
    (pre ++ p :: post) emptyPT st₁ r hps
    (fun q hq rid₁ v₁ e₁ hpeek₁ hver₁ hparse₁ hban₁ hsig₁ =>
      ⟨hban₁, hsig₁, q, hq, by simp [PDU.eventUnder, hpeek₁, hver₁, hparse₁]⟩)
    (by intro t ht; simp [emptyPT] at ht)
    (by intro entry hentry; simp [emptyPT] at hentry)
  have hne : ∀ t : InputTask,
      (env.isServerBannedFromRoom t.event.roomID origin = false ∧
        env.verifyEventSignatures t.event = none ∧
        ∃ q ∈ pre ++ p :: post, PDU.eventUnder env q = some t.event) →
      t.event.eventID ≠ e.eventID := by
    rintro t ⟨hb, hs, q, hq, hqe⟩ heq
    rcases List.mem_append.mp hq with hq₁ | hq₂
    · exact huniq q (List.mem_append_left _ hq₁) t.event hqe heq
    · rcases List.mem_cons.mp hq₂ with hqp | hq₃
      · rw [hqp, hEU] at hqe
        have hte : e = t.event := by
          injection hqe
        rcases hblocked with hb₁ | ⟨s, hs₁⟩
        · rw [← hte] at hb
          rw [hb] at hb₁
          simp at hb₁
        · rw [← hte] at hs
          rw [hs] at hs₁
          simp at hs₁
      · exact huniq q (List.mem_append_right _ hq₃) t.event hqe heq
  exact ⟨fun t ht => hne t (hinv.1 t ht),
    fun entry hentry t ht => hne t (hinv.2 entry hentry t ht)⟩

/-- If the loop step for p writes the result entry of e and no other PDU
touches the same event ID, the accepted transaction returns that entry. -/
theorem result_entry_survives (env : TxnEnv) (origin : String)
    (pre post : List PDU) (p : PDU) (e : Event) (val : String)
    (hstep : ∀ st₁ : PTState, processPDU env origin Ctx.background st₁ p =
      Except.ok { st₁ with results := mapSet st₁.results e.eventID val })
    (huniqPost : ∀ q ∈ post, ∀ e₁ : Event, PDU.eventUnder env q = some e₁ →
      e₁.eventID ≠ e.eventID)
    (hTne : ∀ {st₁ : PTState} {r : Option JSONResponse},
      processPDUs env origin Ctx.background (pre ++ p :: post) emptyPT = (st₁, r) →
      ∀ t ∈ st₁.tasks, t.event.eventID ≠ e.eventID)
    {res : List (String × String)}
    (hacc : (processTransaction env origin Ctx.background (pre ++ p :: post) emptyPT).2 =
      Except.ok res) :
    mapGet res e.eventID = some val := by
  unfold processTransaction at hacc
  cases hps : processPDUs env origin Ctx.background (pre ++ p :: post) emptyPT with
  | mk st r =>
    rw [hps] at hacc
    cases r with
    | some r₁ => simp at hacc
    | none =>
      simp only [Except.ok.injEq] at hacc
      have htasks := hTne hps
      cases hpre : processPDUs env origin Ctx.background pre emptyPT with
      | mk st₁ r₁ =>
        cases r₁ with
        | some rr =>
          rw [processPDUs_append_abort (p :: post) hpre] at hps
          simp at hps
        | none =>
          rw [processPDUs_append_ok (p :: post) hpre, processPDUs_cons_ok (hstep st₁)] at hps
          have h₁ : mapGet st.results e.eventID =
              mapGet (mapSet st₁.results e.eventID val) e.eventID :=
            processPDUs_results_preserved hps huniqPost
          rw [← hacc,
            mapGet_foldl_tasks e.eventID st.tasks st.results htasks, h₁,
            mapGet_mapSet_self]

/-- A concrete environment whose server ACL bans the transaction origin
exactly in room !a:x. -/
def envAcl : TxnEnv :=
  ⟨fun _ => some "6", fun roomID _ => roomID == "!a:x", fun _ => none⟩

/-- A PDU for the ACL-banned room, carrying event ID dollar-dup. -/
def pduBanned : PDU := ⟨some "!a:x", fun _ => ParseOutcome.ok ⟨"$dup:x", "!a:x"⟩⟩

/-- A PDU for an unbanned room carrying the same event ID. -/
def pduDup : PDU := ⟨some "!b:x", fun _ => ParseOutcome.ok ⟨"$dup:x", "!b:x"⟩⟩

/-- Counterexample to C5 as stated: two PDUs in different rooms can carry
the same event ID.  The first parses successfully and its origin is
banned by the server ACL of its room, so the loop records the Forbidden
by server ACLs entry — but the aggregation pass after the worker wait
overwrites the entry of that event ID with the empty result of the
second, accepted PDU, so the returned map carries no such error. -/
theorem acl_result_overwritten :
    envAcl.isServerBannedFromRoom "!a:x" "remote" = true ∧
    pduBanned.parse "6" = ParseOutcome.ok ⟨"$dup:x", "!a:x"⟩ ∧
    (processTransaction envAcl "remote" Ctx.background [pduBanned, pduDup] emptyPT).2 =
      Except.ok [("$dup:x", "")] ∧
    mapGet [("$dup:x", "")] "$dup:x" ≠ some "Forbidden by server ACLs" := by
  refine ⟨rfl, rfl, rfl, by decide⟩

/-- C5 amended: for every PDU of an accepted transaction that parses
successfully — provided no other PDU of the transaction contributes an
event with the same event ID, since a later write through the
per-event-ID results map would overwrite the entry (see the
counterexample) — an origin banned by the server ACL of the room yields
the result entry with error exactly Forbidden by server ACLs, and a
failed signature verification yields the result entry carrying exactly
the verifier error string (non-empty whenever that string is); in both
cases no task for that event ID is enqueued on any room worker and no
event with that ID is ever submitted to the roomserver by a worker
draining those queues. -/
theorem acl_and_signature_results (env : TxnEnv) (origin : String)
    (pre post : List PDU) (p : PDU) (rid : String) (v : RoomVersion) (e : Event)
    (hpeek : p.roomIDPeek = some rid)
    (hver : env.queryRoomVersionForRoom rid = some v)
    (hparse : p.parse v = ParseOutcome.ok e)
    (huniq : ∀ q ∈ pre ++ post, ∀ e₁ : Event, PDU.eventUnder env q = some e₁ →
      e₁.eventID ≠ e.eventID) :
    (env.isServerBannedFromRoom e.roomID origin = true →
      ∀ res : List (String × String),
        (processTransaction env origin Ctx.background (pre ++ p :: post) emptyPT).2 =
          Except.ok res →
        mapGet res e.eventID = some "Forbidden by server ACLs") ∧
    (∀ s : String, env.isServerBannedFromRoom e.roomID origin = false →
      env.verifyEventSignatures e = some s →
      ∀ res : List (String × String),
        (processTransaction env origin Ctx.background (pre ++ p :: post) emptyPT).2 =
          Except.ok res →
        mapGet res e.eventID = some s) ∧
    ((env.isServerBannedFromRoom e.roomID origin = true ∨
        (∃ s : String, env.verifyEventSignatures e = some s)) →
      (∀ t ∈ (processTransaction env origin Ctx.background
          (pre ++ p :: post) emptyPT).1.tasks, t.event.eventID ≠ e.eventID) ∧
      (∀ entry ∈ (processTransaction env origin Ctx.background
          (pre ++ p :: post) emptyPT).1.workers.queues,
        ∀ (rs : RSEnv) (m : Metrics), ∀ ev₁ ∈ submittedEvents rs entry.2 m,
          ev₁.eventID ≠ e.eventID)) := by
  have huniqPost : ∀ q ∈ post, ∀ e₁ : Event, PDU.eventUnder env q = some e₁ →
      e₁.eventID ≠ e.eventID :=
    fun q hq => huniq q (List.mem_append_right _ hq)
  refine ⟨?_, ?_, ?_⟩
  · intro hban res hacc
    have hstep : ∀ st₁ : PTState, processPDU env origin Ctx.background st₁ p =
        Except.ok { st₁ with
          results := mapSet st₁.results e.eventID "Forbidden by server ACLs" } := by
      intro st₁
      simp [processPDU, hpeek, hver, hparse, hban]
    exact result_entry_survives env origin pre post p e "Forbidden by server ACLs" hstep
      huniqPost
      (fun hps => (blocked_event_not_enqueued env origin pre post p rid v e hpeek hver hparse
        huniq (Or.inl hban) hps).1)
      hacc
  · intro s hban hsig res hacc
    have hstep : ∀ st₁ : PTState, processPDU env origin Ctx.background st₁ p =
        Except.ok { st₁ with results := mapSet st₁.results e.eventID s } := by
      intro st₁
      simp [processPDU, hpeek, hver, hparse, hban, hsig]
    exact result_entry_survives env origin pre post p e s hstep huniqPost
      (fun hps => (blocked_event_not_enqueued env origin pre post p rid v e hpeek hver hparse
        huniq (Or.inr ⟨s, hsig⟩) hps).1)
      hacc
  · intro hblocked
    cases hps : processPDUs env origin Ctx.background (pre ++ p :: post) emptyPT with
    | mk st₁ r =>
      have hboth := blocked_event_not_enqueued env origin pre post p rid v e hpeek hver hparse
        huniq hblocked hps
      constructor
      · rw [processTransaction_tasks_eq, hps]
        exact hboth.1
      · rw [processTransaction_workers_eq, hps]
        intro entry hentry rs m ev₁ hev₁
        obtain ⟨t, ht, hte⟩ := mem_submittedEvents hev₁
        rw [← hte]
        exact hboth.2 entry hentry t ht

/-- Witness for the amended C5 at a concrete one-PDU transaction whose
only PDU is ACL-banned. -/
theorem acl_and_signature_results_witness :
    pduBanned.roomIDPeek = some "!a:x" ∧
    envAcl.queryRoomVersionForRoom "!a:x" = some "6" ∧
    pduBanned.parse "6" = ParseOutcome.ok ⟨"$dup:x", "!a:x"⟩ ∧
    ((envAcl.isServerBannedFromRoom (Event.mk "$dup:x" "!a:x").roomID "remote" = true →
      ∀ res : List (String × String),
        (processTransaction envAcl "remote" Ctx.background ([] ++ pduBanned :: []) emptyPT).2 =
          Except.ok res →
        mapGet res (Event.mk "$dup:x" "!a:x").eventID = some "Forbidden by server ACLs") ∧
    (∀ s : String, envAcl.isServerBannedFromRoom (Event.mk "$dup:x" "!a:x").roomID "remote" = false →
      envAcl.verifyEventSignatures (Event.mk "$dup:x" "!a:x") = some s →
      ∀ res : List (String × String),
        (processTransaction envAcl "remote" Ctx.background ([] ++ pduBanned :: []) emptyPT).2 =
          Except.ok res →
        mapGet res (Event.mk "$dup:x" "!a:x").eventID = some s) ∧
    ((envAcl.isServerBannedFromRoom (Event.mk "$dup:x" "!a:x").roomID "remote" = true ∨
        (∃ s : String, envAcl.verifyEventSignatures (Event.mk "$dup:x" "!a:x") = some s)) →
      (∀ t ∈ (processTransaction envAcl "remote" Ctx.background
          ([] ++ pduBanned :: []) emptyPT).1.tasks,
        t.event.eventID ≠ (Event.mk "$dup:x" "!a:x").eventID) ∧
      (∀ entry ∈ (processTransaction envAcl "remote" Ctx.background
          ([] ++ pduBanned :: []) emptyPT).1.workers.queues,
        ∀ (rs : RSEnv) (m : Metrics), ∀ ev₁ ∈ submittedEvents rs entry.2 m,
          ev₁.eventID ≠ (Event.mk "$dup:x" "!a:x").eventID))) :=
  ⟨rfl, rfl, rfl,
    acl_and_signature_results envAcl "remote" [] [] pduBanned "!a:x" "6" ⟨"$dup:x", "!a:x"⟩
      rfl rfl rfl (by simp)⟩

end Dendrite
